import Mathlib

/-!
# Verification of the gocloc language-classification and line-counting core

Shallow embedding of the repository's Go sources:

* `src/language.go` — shebang parsing (`getShebang`, `getFileTypeByShebang`),
  extension classification (`getFileType`), the trimmed registry and
  `GetFormattedString`.
* `src/unnamed/part_000` — the full classifier (`getFileTypeFull` below) with
  ambiguous-extension sniffing, special-filename tables, the case-insensitive
  basename table, and the full language registry (`NewDefinedLanguages`).
* The line scanner of spec section 4.3 — its source file is not part of the
  sources here, so it is modelled from the spec (marked on each definition).

Strings are embedded as `List Char`; file I/O is embedded by passing the file
content (or `none` for an unreadable file) as an explicit argument.
-/

namespace gocloc

/-- Characters Go's `unicode.IsSpace` accepts, restricted to the Latin-1 range
(the classifier only ever meets ASCII here).  Used for
`bytes.TrimLeftFunc(line, unicode.IsSpace)`. -/
def goIsSpace (c : Char) : Bool :=
  c = ' ' ∨ c = '\t' ∨ c = '\n' ∨ c = '\x0b' ∨ c = '\x0c' ∨ c = '\r' ∨
  c = '\x85' ∨ c = '\xa0'

/-- The character class `\s` of Go's `regexp` package: `[\t\n\f\r ]`. -/
def goReSpace (c : Char) : Bool :=
  c = '\t' ∨ c = '\n' ∨ c = '\x0c' ∨ c = '\r' ∨ c = ' '

/-- The regex character class `[a-zA-Z]`. -/
def isAlphaAZ (c : Char) : Bool :=
  ( 'a' ≤ c ∧ c ≤ 'z') ∨ ( 'A' ≤ c ∧ c ≤ 'Z')

/-- The regex character class `[.a-zA-Z/]` of `reShebangLang`. -/
def inLangClass (c : Char) : Bool :=
  c = '.' ∨ c = '/' ∨ isAlphaAZ c

/-- `strings.ToLower`, restricted to ASCII (Go lowercases full Unicode; the
special-filename table only holds ASCII names). -/
def lowerL (s : List Char) : List Char :=
  s.map Char.toLower

/-- Go `path/filepath.Ext`: scan the path backwards; stop at a path separator;
the extension is the suffix from the final dot of the last element, or empty.
`extRevAux` receives the reversed path and accumulates the characters seen
after (to the right of) the candidate dot. -/
def extRevAux : List Char → List Char → List Char
  | [], _ => []
  | c :: rest, acc =>
    if c = '/' then []
    else if c = '.' then '.' :: acc
    else extRevAux rest (c :: acc)

/-- Go `filepath.Ext(path)` (Unix separators). -/
def goExt (path : List Char) : List Char :=
  extRevAux path.reverse []

/-- Go `filepath.Base(path)` (Unix separators): `"."` for the empty path,
strip trailing separators, then keep everything after the last separator,
`"/"` if only separators remain. -/
def goBase (path : List Char) : List Char :=
  if path = [] then [ '.']
  else
    let r := path.reverse.dropWhile (fun c => c = '/')
    if r = [] then [ '/']
    else (r.takeWhile (fun c => ¬ c = '/')).reverse

/-- The `shebang2ext` table of `src/language.go` / `src/unnamed/part_000`. -/
def shebang2ext : List (List Char × List Char) :=
  [ ( "gosh".data, "scm".data),
    ( "make".data, "make".data),
    ( "perl".data, "pl".data),
    ( "rc".data, "plan9sh".data),
    ( "python".data, "py".data),
    ( "ruby".data, "rb".data),
    ( "escript".data, "erl".data)]

/-- `if sl, ok := shebang2ext[shebangLang]; ok { return sl, ok }` followed by
`return shebangLang, true`: map through the table when present, else return
the extracted name verbatim. -/
def shebangExtLookup (name : List Char) : List Char :=
  match shebang2ext.lookup name with
  | some e => e
  | none => name

/-- Match of `reShebangEnv = ^#! *(\S+/env) ([a-zA-Z]+)` returning the second
capture group.  Derivation of the matcher from the regex (leftmost-first
semantics, anchored at the start): after the literal `#!`, the literal-space
star is forced to take every consecutive space (a following `\S` cannot match
a space).  `\S+/env` makes group 1 a run of non-space characters ending in
`/env`; since the next pattern character is a literal space, group 1 must be
exactly the maximal non-space run, which therefore needs length at least 5
(one `\S` plus `/env`) and the `/env` suffix.  Group 2 is then the maximal
nonempty `[a-zA-Z]` run after that single space. -/
def matchShebangEnv (line : List Char) : Option (List Char) :=
  match line with
  | '#' :: '!' :: rest =>
    let t := rest.dropWhile (fun c => c = ' ')
    let run := t.takeWhile (fun c => ¬ goReSpace c)
    if 5 ≤ run.length ∧ "/env".data.isSuffixOf run ∧
        (t.drop run.length).head? = some ' ' then
      let name := (t.drop (run.length + 1)).takeWhile isAlphaAZ
      if name = [] then none else some name
    else none
  | _ => none

/-- Position test used by `reShebangLang`: a `/` at index `i` immediately
followed by an `[a-zA-Z]` character. -/
def slashCond (t : List Char) (i : Nat) : Bool :=
  decide (t.get? i = some '/') &&
  (match t.get? (i + 1) with
   | some c => isAlphaAZ c
   | none => false)

/-- Scan positions `n, n-1, …, 1` for the last one satisfying `slashCond`
(position 0 is excluded: the `[.a-zA-Z/]+` before the `/` needs at least one
character). -/
def lastSlashPos (t : List Char) : Nat → Option Nat
  | 0 => none
  | j + 1 => if slashCond t (j + 1) then some (j + 1) else lastSlashPos t j

/-- Match of `reShebangLang = ^#! *[.a-zA-Z/]+/([a-zA-Z]+)` returning the
capture group.  Derivation: as above the space star deterministically takes
all spaces.  `[.a-zA-Z/]+` greedily takes the maximal class run `m` and
backtracks: the literal `/` sits at some index `j` with `1 ≤ j` (the plus
needs one character) and `j < m.length` (a `/` at the run boundary is
impossible since `/` is in the class), followed by a letter; leftmost-first
semantics pick the largest such `j`, and the group is the maximal letter run
after it. -/
def matchShebangLang (line : List Char) : Option (List Char) :=
  match line with
  | '#' :: '!' :: rest =>
    let t := rest.dropWhile (fun c => c = ' ')
    let m := t.takeWhile inLangClass
    match lastSlashPos t (m.length - 1) with
    | some j => some ((t.drop (j + 1)).takeWhile isAlphaAZ)
    | none => none
  | _ => none

/-- `getShebang` of `src/language.go` (identical in `src/unnamed/part_000`):
try `reShebangEnv`, then `reShebangLang`; map the extracted interpreter name
through `shebang2ext`, else return it verbatim; `("", false)` on no match. -/
def getShebang (line : List Char) : List Char × Bool :=
  match matchShebangEnv line with
  | some name => (shebangExtLookup name, true)
  | none =>
    match matchShebangLang line with
    | some name => (shebangExtLookup name, true)
    | none => ([], false)

/-- `bufio.Reader.ReadBytes('\n')` on the file's content: `none` models an
unreadable file (failed `os.Open`) or a read error — in particular EOF before
any `'\n'`, in which case the source's `if err != nil { return }` discards the
partial data.  On success the returned line includes the delimiter. -/
def readFirstLine : Option (List Char) → Option (List Char)
  | none => none
  | some content =>
    if '\n' ∈ content then
      some ((content.takeWhile (fun c => ¬ c = '\n')) ++ [ '\n'])
    else none

/-- `getFileTypeByShebang` of `src/language.go` (identical in
`src/unnamed/part_000`); the file is embedded as its content, `none` when it
cannot be opened.  Trims leading whitespace, requires `len(line) > 2` with a
`#!` prefix, and defers to `getShebang`. -/
def getFileTypeByShebang (content : Option (List Char)) : List Char × Bool :=
  match readFirstLine content with
  | none => ([], false)
  | some line =>
    match line.dropWhile goIsSpace with
    | '#' :: '!' :: c :: rest => getShebang ( '#' :: '!' :: c :: rest)
    | _ => ([], false)

/-- `getFileType` of `src/language.go` (the `*ClocOptions` argument is unused
there): shebang classification first; on failure fall back to the extension
with the leading dot stripped when `len(ext) >= 2`. -/
def getFileType (path : List Char) (content : Option (List Char)) :
    List Char × Bool :=
  let ext := goExt path
  match getFileTypeByShebang content with
  | (s, true) => (s, true)
  | (_, false) =>
    if 2 ≤ ext.length then (ext.drop 1, true) else (ext, false)

/-- `getFileType` of `src/unnamed/part_000` — the full classifier.  The
`enry.GetLanguage` content sniffer is an external library, embedded as an
explicit function argument; `os.ReadFile` is embedded as the `content`
argument (`none`: unreadable).  The `opts.Debug` printing is side-effect-only
and has no result, so it does not appear.  Decision order as in the source:
ambiguous extensions → exact basename table → lowercased basename table
(where `"rebar"` is skipped) → shebang → raw extension. -/
def getFileTypeFull (enry : List Char → List Char → List Char)
    (path : List Char) (content : Option (List Char)) : List Char × Bool :=
  let ext := goExt path
  let base := goBase path
  if ext = ".m".data ∨ ext = ".v".data ∨ ext = ".fs".data ∨
      ext = ".r".data ∨ ext = ".ts".data then
    match content with
    | none => ([], false)
    | some c => (enry path c, true)
  else if ext = ".mo".data then
    match content with
    | none => ([], false)
    | some c =>
      let lang := enry path c
      if ¬ lang = [] then ( "Motoko".data, true) else (lang, true)
  else if base = "meson.build".data ∨ base = "meson_options.txt".data then
    ( "meson".data, true)
  else if base = "CMakeLists.txt".data then ( "cmake".data, true)
  else if base = "configure.ac".data then ( "m4".data, true)
  else if base = "Makefile.am".data then ( "makefile".data, true)
  else if base = "build.xml".data then ( "Ant".data, true)
  else if base = "pom.xml".data then ( "maven".data, true)
  else if lowerL base = "makefile".data then ( "makefile".data, true)
  else if lowerL base = "nukefile".data then ( "nu".data, true)
  else if lowerL base = "rebar".data then ([], false)
  else
    match getFileTypeByShebang content with
    | (s, true) => (s, true)
    | (_, false) =>
      if 2 ≤ ext.length then (ext.drop 1, true) else (ext, false)

/-- The `Language` struct of `src/language.go` / `src/unnamed/part_000`.
The two `int32` count fields are embedded as `Int`. -/
structure Language where
  Name : String
  lineComments : List String
  multiLines : List (String × String)
  Files : List String
  Code : Int
  Comments : Int
  Blanks : Int
  Total : Int
deriving DecidableEq

instance : Inhabited Language := ⟨⟨ "", [], [], [], 0, 0, 0, 0⟩⟩

/-- `Languages` is `[]Language`. -/
def Languages := List Language

/-- The element-level comparison performed by `Languages.Less`: the language
with more code comes first; on equal code counts, the lexicographically
smaller name comes first. -/
def lessLang (a b : Language) : Bool :=
  if a.Code = b.Code then decide (a.Name < b.Name) else decide (b.Code < a.Code)

/-- `func (ls Languages) Less(i, j int) bool` of `src/language.go`
(identical in `src/unnamed/part_000`): compares the elements at indices
`i` and `j` with `lessLang`. -/
def Languages.Less (ls : Languages) (i j : Nat) : Bool :=
  lessLang (List.getD ls i default) (List.getD ls j default)

/-- `NewLanguage` of both source files: zero counters, empty file list. -/
def NewLanguage (name : String) (lineComments : List String)
    (multiLines : List (String × String)) : Language :=
  ⟨name, lineComments, multiLines, [], 0, 0, 0, 0⟩

/-- `DefinedLanguages`; the Go `map[string]*Language` is embedded as an
association list in the source's textual order. -/
structure DefinedLanguages where
  Langs : List (String × Language)

/-- `GetFormattedString` of `src/language.go`: collects the names, sorts them —
and returns the buffer, into which nothing was ever written. -/
def DefinedLanguages.GetFormattedString (langs : DefinedLanguages) : String :=
  let buf : String := ""
  let printLangs := langs.Langs.map (fun kv => kv.2.Name)
  let sortedLangs := printLangs.insertionSort (fun a b => a ≤ b)
  let _ := sortedLangs
  buf

/-- Modelled from the spec: the scanner's `LanguageDefinition` (spec section 3)
— the comment-syntax part consumed by the Line Scanner, whose source file is
not among the sources here.  `lineComments` are the single-line comment
prefixes; `multiLines` the ordered block-delimiter pairs, where a pair with an
empty side means "no block comment support". -/
structure LanguageDef where
  lineComments : List (List Char)
  multiLines : List (List Char × List Char)

/-- Modelled from the spec: per-line classification of the Line Scanner. -/
inductive LineClass
  | blank : LineClass
  | comment : LineClass
  | code : LineClass
deriving DecidableEq

/-- Modelled from the spec: `LineCounts` (spec section 3), non-negative
per-file counters. -/
structure LineCounts where
  code : Nat
  comment : Nat
  blank : Nat
deriving DecidableEq, Repr

/-- Modelled from the spec: the scanner state (spec section 4.3) — `Normal`,
or `InBlock` with the delimiter pair that opened the block. -/
inductive ScanState
  | Normal : ScanState
  | InBlock : List Char × List Char → ScanState
deriving DecidableEq

/-- A line consisting only of whitespace (or empty). -/
def blankLine (l : List Char) : Bool :=
  l.all goIsSpace

/-- Leading whitespace removed ("trimmed content" of spec section 4.3). -/
def trimLeftWs (l : List Char) : List Char :=
  l.dropWhile goIsSpace

/-- First index at which `needle` occurs as a contiguous substring of `hay`,
if any. -/
def subAt? (needle : List Char) : List Char → Option Nat
  | [] => if needle = [] then some 0 else none
  | c :: t =>
    if needle.isPrefixOf (c :: t) then some 0
    else (subAt? needle t).map (fun i => i + 1)

/-- `needle` occurs as a contiguous substring of `hay`. -/
def containsSub (needle hay : List Char) : Bool :=
  (subAt? needle hay).isSome

/-- Does the trimmed line start with one of the line-comment prefixes? -/
def startsWithAny (pres : List (List Char)) (l : List Char) : Bool :=
  pres.any (fun p => p.isPrefixOf l)

/-- Modelled from the spec (section 4.3): in `Normal` state, the first usable
block pair (both delimiters nonempty, declaration order, stop at the first
match) whose start delimiter the line contains; the Bool reports whether the
matching end delimiter also occurs later in the same line (single-line use of
a block delimiter). -/
def findBlockOpen (pairs : List (List Char × List Char)) (line : List Char) :
    Option ((List Char × List Char) × Bool) :=
  match pairs with
  | [] => none
  | (s, e) :: rest =>
    if ¬ s = [] ∧ ¬ e = [] then
      match subAt? s line with
      | some i => some ((s, e), containsSub e (line.drop (i + s.length)))
      | none => findBlockOpen rest line
    else findBlockOpen rest line

/-- Modelled from the spec (section 4.3): classify one line and produce the
next state.  In `Normal`: whitespace-only lines are blank; otherwise block
delimiters are checked before line-comment prefixes (tie-break policy of the
spec), a block start not closed on the same line enters `InBlock`; otherwise
a line whose trimmed content starts with a line-comment prefix is a comment;
otherwise code.  In `InBlock`: every line is a comment regardless of content
(block state dominates blank detection), and the line containing the open
pair's end delimiter returns to `Normal`. -/
def scanLine (lang : LanguageDef) : ScanState → List Char → LineClass × ScanState
  | ScanState.Normal, line =>
    if blankLine line then (LineClass.blank, ScanState.Normal)
    else
      match findBlockOpen lang.multiLines line with
      | some (pr, closed) =>
        (LineClass.comment,
         if closed then ScanState.Normal else ScanState.InBlock pr)
      | none =>
        if startsWithAny lang.lineComments (trimLeftWs line) then
          (LineClass.comment, ScanState.Normal)
        else (LineClass.code, ScanState.Normal)
  | ScanState.InBlock pr, line =>
    (LineClass.comment,
     if containsSub pr.2 line then ScanState.Normal else ScanState.InBlock pr)

/-- Modelled from the spec: fold `scanLine` over the lines in file order,
threading the state; an unterminated block at EOF is a plain fallthrough. -/
def scanLines (lang : LanguageDef) : ScanState → List (List Char) → LineCounts
  | _, [] => ⟨0, 0, 0⟩
  | st, l :: ls =>
    let r := scanLine lang st l
    let rest := scanLines lang r.2 ls
    match r.1 with
    | LineClass.code => { rest with code := rest.code + 1 }
    | LineClass.comment => { rest with comment := rest.comment + 1 }
    | LineClass.blank => { rest with blank := rest.blank + 1 }

/-- Split file content into lines: a `'\n'` ends the current line, and a
trailing `'\n'` terminates the last line rather than opening an empty one
(the behaviour of reading a file line by line). -/
def toLines : List Char → List (List Char)
  | [] => []
  | c :: cs =>
    if c = '\n' then [] :: toLines cs
    else
      match toLines cs with
      | [] => [ [c]]
      | l :: ls => (c :: l) :: ls

/-- Modelled from the spec: `scan(fileContent, languageDefinition) ->
LineCounts` (spec section 4.3). -/
def scan (lang : LanguageDef) (content : List Char) : LineCounts :=
  scanLines lang ScanState.Normal (toLines content)


/-- `NewDefinedLanguages` of `src/unnamed/part_000`: the full language
registry, one entry per language in the source's textual order (the Go map
is keyed by the language name). -/
def NewDefinedLanguages : DefinedLanguages :=
  ⟨[ ( "ActionScript", NewLanguage "ActionScript" [ "//"] [( "/*", "*/")]),
     ( "Ada", NewLanguage "Ada" [ "--"] [( "", "")]),
     ( "Ant", NewLanguage "Ant" [ "<!--"] [( "<!--", "-->")]),
     ( "AsciiDoc", NewLanguage "AsciiDoc" [] [( "", "")]),
     ( "Assembly", NewLanguage "Assembly" [ "//", ";", "#", "@", "|", "!"] [( "/*", "*/")]),
     ( "ATS", NewLanguage "ATS" [ "//"] [( "/*", "*/"), ( "(*", "*)")]),
     ( "AutoHotkey", NewLanguage "AutoHotkey" [ ";"] [( "", "")]),
     ( "Awk", NewLanguage "Awk" [ "#"] [( "", "")]),
     ( "Arduino Sketch", NewLanguage "Arduino Sketch" [ "//"] [( "/*", "*/")]),
     ( "Batch", NewLanguage "Batch" [ "REM", "rem"] [( "", "")]),
     ( "BASH", NewLanguage "BASH" [ "#"] [( "", "")]),
     ( "BitBake", NewLanguage "BitBake" [ "#"] [( "", "")]),
     ( "C", NewLanguage "C" [ "//"] [( "/*", "*/")]),
     ( "C Header", NewLanguage "C Header" [ "//"] [( "/*", "*/")]),
     ( "C Shell", NewLanguage "C Shell" [ "#"] [( "", "")]),
     ( "Cairo", NewLanguage "Cairo" [ "//"] [( "", "")]),
     ( "Carbon", NewLanguage "Carbon" [ "//"] [( "", "")]),
     ( "Cap\x27n Proto", NewLanguage "Cap\x27n Proto" [ "#"] [( "", "")]),
     ( "Carp", NewLanguage "Carp" [ ";"] [( "", "")]),
     ( "C#", NewLanguage "C#" [ "//"] [( "/*", "*/")]),
     ( "Chapel", NewLanguage "Chapel" [ "//"] [( "/*", "*/")]),
     ( "Clojure", NewLanguage "Clojure" [ "#", "#_"] [( "", "")]),
     ( "COBOL", NewLanguage "COBOL" [ "*", "/"] [( "", "")]),
     ( "CoffeeScript", NewLanguage "CoffeeScript" [ "#"] [( "###", "###")]),
     ( "Coq", NewLanguage "Coq" [ "(*"] [( "(*", "*)")]),
     ( "ColdFusion", NewLanguage "ColdFusion" [] [( "<!---", "--->")]),
     ( "ColdFusion CFScript", NewLanguage "ColdFusion CFScript" [ "//"] [( "/*", "*/")]),
     ( "CMake", NewLanguage "CMake" [ "#"] [( "", "")]),
     ( "C++", NewLanguage "C++" [ "//"] [( "/*", "*/")]),
     ( "C++ Header", NewLanguage "C++ Header" [ "//"] [( "/*", "*/")]),
     ( "Crystal", NewLanguage "Crystal" [ "#"] [( "", "")]),
     ( "CSS", NewLanguage "CSS" [ "//"] [( "/*", "*/")]),
     ( "Cython", NewLanguage "Cython" [ "#"] [( "\"\"\"", "\"\"\"")]),
     ( "CUDA", NewLanguage "CUDA" [ "//"] [( "/*", "*/")]),
     ( "D", NewLanguage "D" [ "//"] [( "/*", "*/")]),
     ( "Dart", NewLanguage "Dart" [ "//", "///"] [( "/*", "*/")]),
     ( "Dhall", NewLanguage "Dhall" [ "--"] [( "\x7b-", "-\x7d")]),
     ( "DTrace", NewLanguage "DTrace" [] [( "/*", "*/")]),
     ( "Device Tree", NewLanguage "Device Tree" [ "//"] [( "/*", "*/")]),
     ( "Eiffel", NewLanguage "Eiffel" [ "--"] [( "", "")]),
     ( "Elm", NewLanguage "Elm" [ "--"] [( "\x7b-", "-\x7d")]),
     ( "Elixir", NewLanguage "Elixir" [ "#"] [( "", "")]),
     ( "Erlang", NewLanguage "Erlang" [ "%"] [( "", "")]),
     ( "Expect", NewLanguage "Expect" [ "#"] [( "", "")]),
     ( "Fish", NewLanguage "Fish" [ "#"] [( "", "")]),
     ( "Frege", NewLanguage "Frege" [ "--"] [( "\x7b-", "-\x7d")]),
     ( "F*", NewLanguage "F*" [ "(*", "//"] [( "(*", "*)")]),
     ( "F#", NewLanguage "F#" [ "(*"] [( "(*", "*)")]),
     ( "Lean", NewLanguage "Lean" [ "--"] [( "/-", "-/")]),
     ( "Logtalk", NewLanguage "Logtalk" [ "%"] [( "", "")]),
     ( "Lua", NewLanguage "Lua" [ "--"] [( "--[[", "]]")]),
     ( "Lilypond", NewLanguage "Lilypond" [ "%"] [( "", "")]),
     ( "LISP", NewLanguage "LISP" [ ";;"] [( "#|", "|#")]),
     ( "LiveScript", NewLanguage "LiveScript" [ "#"] [( "/*", "*/")]),
     ( "Factor", NewLanguage "Factor" [ "! "] [( "", "")]),
     ( "FORTRAN Legacy", NewLanguage "FORTRAN Legacy" [ "c", "C", "!", "*"] [( "", "")]),
     ( "FORTRAN Modern", NewLanguage "FORTRAN Modern" [ "!"] [( "", "")]),
     ( "Gherkin", NewLanguage "Gherkin" [ "#"] [( "", "")]),
     ( "GLSL", NewLanguage "GLSL" [ "//"] [( "/*", "*/")]),
     ( "Go", NewLanguage "Go" [ "//"] [( "/*", "*/")]),
     ( "Groovy", NewLanguage "Groovy" [ "//"] [( "/*", "*/")]),
     ( "Handlebars", NewLanguage "Handlebars" [] [( "<!--", "-->"), ( "\x7b\x7b!", "\x7d\x7d")]),
     ( "Haskell", NewLanguage "Haskell" [ "--"] [( "\x7b-", "-\x7d")]),
     ( "Haxe", NewLanguage "Haxe" [ "//"] [( "/*", "*/")]),
     ( "Hare", NewLanguage "Hare" [ "//"] [( "", "")]),
     ( "HLSL", NewLanguage "HLSL" [ "//"] [( "/*", "*/")]),
     ( "HTML", NewLanguage "HTML" [ "//", "<!--"] [( "<!--", "-->")]),
     ( "Idris", NewLanguage "Idris" [ "--"] [( "\x7b-", "-\x7d")]),
     ( "Imba", NewLanguage "Imba" [ "#"] [( "###", "###")]),
     ( "Io", NewLanguage "Io" [ "//", "#"] [( "/*", "*/")]),
     ( "SKILL", NewLanguage "SKILL" [ ";"] [( "/*", "*/")]),
     ( "JAI", NewLanguage "JAI" [ "//"] [( "/*", "*/")]),
     ( "Janet", NewLanguage "Janet" [ "#"] [( "", "")]),
     ( "Java", NewLanguage "Java" [ "//"] [( "/*", "*/")]),
     ( "JSP", NewLanguage "JSP" [ "//"] [( "/*", "*/")]),
     ( "JavaScript", NewLanguage "JavaScript" [ "//"] [( "/*", "*/")]),
     ( "Julia", NewLanguage "Julia" [ "#"] [( "#:=", ":=#")]),
     ( "Jupyter Notebook", NewLanguage "Jupyter Notebook" [ "#"] [( "", "")]),
     ( "JSON", NewLanguage "JSON" [] [( "", "")]),
     ( "JSX", NewLanguage "JSX" [ "//"] [( "/*", "*/")]),
     ( "Koka", NewLanguage "Koka" [ "//"] [( "/*", "*/")]),
     ( "Kotlin", NewLanguage "Kotlin" [ "//"] [( "/*", "*/")]),
     ( "LD Script", NewLanguage "LD Script" [ "//"] [( "/*", "*/")]),
     ( "LESS", NewLanguage "LESS" [ "//"] [( "/*", "*/")]),
     ( "Objective-C", NewLanguage "Objective-C" [ "//"] [( "/*", "*/")]),
     ( "Markdown", NewLanguage "Markdown" [ "<!--"] [( "<!--", "-->")]),
     ( "Motoko", NewLanguage "Motoko" [ "//"] [( "/*", "*/")]),
     ( "Nix", NewLanguage "Nix" [ "#"] [( "/*", "*/")]),
     ( "NSIS", NewLanguage "NSIS" [ "#", ";"] [( "/*", "*/")]),
     ( "Nu", NewLanguage "Nu" [ ";", "#"] [( "", "")]),
     ( "OCaml", NewLanguage "OCaml" [] [( "(*", "*)")]),
     ( "Objective-C++", NewLanguage "Objective-C++" [ "//"] [( "/*", "*/")]),
     ( "Makefile", NewLanguage "Makefile" [ "#"] [( "", "")]),
     ( "MATLAB", NewLanguage "MATLAB" [ "%"] [( "%\x7b", "\x7d%")]),
     ( "Mercury", NewLanguage "Mercury" [ "%"] [( "/*", "*/")]),
     ( "Maven", NewLanguage "Maven" [ "<!--"] [( "<!--", "-->")]),
     ( "Meson", NewLanguage "Meson" [ "#"] [( "", "")]),
     ( "Mojo", NewLanguage "Mojo" [ "#"] [( "", "")]),
     ( "Move", NewLanguage "Move" [ "//"] [( "", "")]),
     ( "Mustache", NewLanguage "Mustache" [] [( "\x7b\x7b!", "\x7d\x7d")]),
     ( "M4", NewLanguage "M4" [ "#"] [( "", "")]),
     ( "Nim", NewLanguage "Nim" [ "#"] [( "#[", "]#")]),
     ( "Nunjucks", NewLanguage "Nunjucks" [] [( "\x7b#", "#\x7d"), ( "<!--", "-->")]),
     ( "lex", NewLanguage "lex" [] [( "/*", "*/")]),
     ( "Odin", NewLanguage "Odin" [ "//"] [( "/*", "*/")]),
     ( "Ohm", NewLanguage "Ohm" [ "//"] [( "/*", "*/")]),
     ( "PHP", NewLanguage "PHP" [ "#", "//"] [( "/*", "*/")]),
     ( "Pascal", NewLanguage "Pascal" [ "//"] [( "\x7b", ")")]),
     ( "Perl", NewLanguage "Perl" [ "#"] [( ":=", ":=cut")]),
     ( "Plain Text", NewLanguage "Plain Text" [] [( "", "")]),
     ( "Plan9 Shell", NewLanguage "Plan9 Shell" [ "#"] [( "", "")]),
     ( "Pony", NewLanguage "Pony" [ "//"] [( "/*", "*/")]),
     ( "PowerShell", NewLanguage "PowerShell" [ "#"] [( "<#", "#>")]),
     ( "Polly", NewLanguage "Polly" [ "<!--"] [( "<!--", "-->")]),
     ( "Protocol Buffers", NewLanguage "Protocol Buffers" [ "//"] [( "", "")]),
     ( "Python", NewLanguage "Python" [ "#"] [( "\"\"\"", "\"\"\"")]),
     ( "Q", NewLanguage "Q" [ "/ "] [( "\\", "/"), ( "/", "\\")]),
     ( "QML", NewLanguage "QML" [ "//"] [( "/*", "*/")]),
     ( "R", NewLanguage "R" [ "#"] [( "", "")]),
     ( "Rebol", NewLanguage "Rebol" [ ";"] [( "", "")]),
     ( "Red", NewLanguage "Red" [ ";"] [( "", "")]),
     ( "Rego", NewLanguage "Rego" [ "#"] [( "", "")]),
     ( "RMarkdown", NewLanguage "RMarkdown" [] [( "", "")]),
     ( "RAML", NewLanguage "RAML" [ "#"] [( "", "")]),
     ( "Racket", NewLanguage "Racket" [ ";"] [( "#|", "|#")]),
     ( "ReStructuredText", NewLanguage "ReStructuredText" [] [( "", "")]),
     ( "Ring", NewLanguage "Ring" [ "#", "//"] [( "/*", "*/")]),
     ( "Ruby", NewLanguage "Ruby" [ "#"] [( ":=begin", ":=end")]),
     ( "Ruby HTML", NewLanguage "Ruby HTML" [ "<!--"] [( "<!--", "-->")]),
     ( "Rust", NewLanguage "Rust" [ "//", "///", "//!"] [( "/*", "*/")]),
     ( "Scala", NewLanguage "Scala" [ "//"] [( "/*", "*/")]),
     ( "Sass", NewLanguage "Sass" [ "//"] [( "/*", "*/")]),
     ( "Scheme", NewLanguage "Scheme" [ ";"] [( "#|", "|#")]),
     ( "sed", NewLanguage "sed" [ "#"] [( "", "")]),
     ( "Stan", NewLanguage "Stan" [ "//"] [( "/*", "*/")]),
     ( "Solidity", NewLanguage "Solidity" [ "//"] [( "/*", "*/")]),
     ( "Bourne Shell", NewLanguage "Bourne Shell" [ "#"] [( "", "")]),
     ( "Standard ML", NewLanguage "Standard ML" [] [( "(*", "*)")]),
     ( "SQL", NewLanguage "SQL" [ "--"] [( "/*", "*/")]),
     ( "Svelte", NewLanguage "Svelte" [ "//"] [( "/*", "*/"), ( "<!--", "-->")]),
     ( "Swift", NewLanguage "Swift" [ "//"] [( "/*", "*/")]),
     ( "Terra", NewLanguage "Terra" [ "--"] [( "--[[", "]]")]),
     ( "TeX", NewLanguage "TeX" [ "%"] [( "", "")]),
     ( "Isabelle", NewLanguage "Isabelle" [] [( "(*", "*)")]),
     ( "TLA", NewLanguage "TLA" [ "\\*"] [( "(*", "*)")]),
     ( "Tcl/Tk", NewLanguage "Tcl/Tk" [ "#"] [( "", "")]),
     ( "TOML", NewLanguage "TOML" [ "#"] [( "", "")]),
     ( "TypeScript", NewLanguage "TypeScript" [ "//"] [( "/*", "*/")]),
     ( "HCL", NewLanguage "HCL" [ "#", "//"] [( "/*", "*/")]),
     ( "Umka", NewLanguage "Umka" [ "//"] [( "/*", "*/")]),
     ( "Unity-Prefab", NewLanguage "Unity-Prefab" [] [( "", "")]),
     ( "MSBuild script", NewLanguage "MSBuild script" [ "<!--"] [( "<!--", "-->")]),
     ( "Vala", NewLanguage "Vala" [ "//"] [( "/*", "*/")]),
     ( "Verilog", NewLanguage "Verilog" [ "//"] [( "/*", "*/")]),
     ( "VimL", NewLanguage "VimL" [ "\""] [( "", "")]),
     ( "Visual Basic", NewLanguage "Visual Basic" [ "\x27"] [( "", "")]),
     ( "Vue", NewLanguage "Vue" [ "<!--"] [( "<!--", "-->")]),
     ( "Vyper", NewLanguage "Vyper" [ "#"] [( "\"\"\"", "\"\"\"")]),
     ( "WiX", NewLanguage "WiX" [ "<!--"] [( "<!--", "-->")]),
     ( "XML", NewLanguage "XML" [ "<!--"] [( "<!--", "-->")]),
     ( "XML resource", NewLanguage "XML resource" [ "<!--"] [( "<!--", "-->")]),
     ( "XSLT", NewLanguage "XSLT" [ "<!--"] [( "<!--", "-->")]),
     ( "XSD", NewLanguage "XSD" [ "<!--"] [( "<!--", "-->")]),
     ( "YAML", NewLanguage "YAML" [ "#"] [( "", "")]),
     ( "Yacc", NewLanguage "Yacc" [ "//"] [( "/*", "*/")]),
     ( "Yul", NewLanguage "Yul" [ "//"] [( "/*", "*/")]),
     ( "Zephir", NewLanguage "Zephir" [ "//"] [( "/*", "*/")]),
     ( "Zig", NewLanguage "Zig" [ "//", "///"] [( "", "")]),
     ( "Zsh", NewLanguage "Zsh" [ "#"] [( "", "")])]⟩


/-! ## Theorems -/

/-- C9: for every `DefinedLanguages` value, `GetFormattedString` as defined in
`src/language.go` returns the empty string — the function collects and sorts
the language names but never writes anything into the buffer it returns. -/
theorem getFormattedString_empty (langs : DefinedLanguages) :
    langs.GetFormattedString = "" := rfl

/-- C8: the registry contains "C" and "C Header" as two distinct entries with
identical comment syntax (line prefix `//`, block pair `/*`…`*/`); looking up
each name returns its own entry, and the entries are not merged although
their comment syntax is equal. -/
theorem registry_C_and_CHeader :
    NewDefinedLanguages.Langs.lookup "C" =
      some (NewLanguage "C" [ "//"] [( "/*", "*/")]) ∧
    NewDefinedLanguages.Langs.lookup "C Header" =
      some (NewLanguage "C Header" [ "//"] [( "/*", "*/")]) ∧
    (NewDefinedLanguages.Langs.lookup "C").map (fun l => l.Name) ≠
      (NewDefinedLanguages.Langs.lookup "C Header").map (fun l => l.Name) ∧
    (NewDefinedLanguages.Langs.lookup "C").map
        (fun l => (l.lineComments, l.multiLines)) =
      (NewDefinedLanguages.Langs.lookup "C Header").map
        (fun l => (l.lineComments, l.multiLines)) := by
  refine ⟨rfl, rfl, by decide, rfl⟩

/-- C5: when the file cannot be opened or its first line cannot be read
(`content = none`, or content with no newline so `ReadBytes` fails), shebang
detection reports no match, and `getFileType` classifies by the extension
alone, stripping the leading dot when at least one character follows it. -/
theorem unreadable_falls_back_to_ext (path : List Char)
    (content : Option (List Char))
    (h : content = none ∨ ∃ c, content = some c ∧ '\n' ∉ c) :
    getFileTypeByShebang content = ([], false) ∧
    (2 ≤ (goExt path).length →
      getFileType path content = ((goExt path).drop 1, true)) := by
  have hsb : getFileTypeByShebang content = ([], false) := by
    rcases h with h | ⟨c, hc, hnl⟩
    · subst h; rfl
    · subst hc; simp [getFileTypeByShebang, readFirstLine, hnl]
  refine ⟨hsb, fun hlen => ?_⟩
  simp [getFileType, hsb, hlen]

/-- C10: `getFileTypeByShebang` yields a classification only when the first
line is newline-terminated: on content that begins with `#!` but contains no
`'\n'`, the read error makes it report no match, and `getFileType` falls back
to the extension rule. -/
theorem shebang_needs_newline (path content : List Char)
    (hpre : "#!".data.isPrefixOf content = true) (hnl : '\n' ∉ content) :
    getFileTypeByShebang (some content) = ([], false) ∧
    (2 ≤ (goExt path).length →
      getFileType path (some content) = ((goExt path).drop 1, true)) := by
  have hsb : getFileTypeByShebang (some content) = ([], false) := by
    simp [getFileTypeByShebang, readFirstLine, hnl]
  refine ⟨hsb, fun hlen => ?_⟩
  simp [getFileType, hsb, hlen]

/-- C3: a successful shebang detection takes priority in `getFileType` over
the path's extension; the extensionless file `script` with first line
`#!/usr/bin/env python` classifies as "py"; and only on shebang failure does
`getFileType` fall back to the dot-stripped extension. -/
theorem shebang_overrides_ext (path : List Char) (content : Option (List Char))
    (s : List Char) (h : getFileTypeByShebang content = (s, true)) :
    getFileType path content = (s, true) ∧
    getFileType ( "script".data) (some ( "#!/usr/bin/env python\n".data)) =
      ( "py".data, true) ∧
    (∀ (p : List Char) (c : Option (List Char)) (x : List Char),
      getFileTypeByShebang c = (x, false) →
      getFileType p c =
        if 2 ≤ (goExt p).length then ((goExt p).drop 1, true)
        else (goExt p, false)) := by
  refine ⟨by simp [getFileType, h], by decide, fun p c x hx => by simp [getFileType, hx]⟩


/-- Each scanned line increments exactly one of the three counters. -/
theorem scanLines_total (lang : LanguageDef) :
    ∀ (ls : List (List Char)) (st : ScanState),
      (scanLines lang st ls).code + (scanLines lang st ls).comment +
        (scanLines lang st ls).blank = ls.length := by
  intro ls
  induction ls with
  | nil => intro st; simp [scanLines]
  | cons l t ih =>
    intro st
    have h := ih (scanLine lang st l).2
    cases hcls : (scanLine lang st l).1 <;> simp [scanLines, hcls] <;> omega

/-- `toLines` of a nonempty content is nonempty. -/
theorem toLines_ne_nil : ∀ (c : List Char), c ≠ [] → toLines c ≠ [] := by
  intro c hc
  cases c with
  | nil => exact absurd rfl hc
  | cons x xs =>
    simp only [toLines]
    split
    · simp
    · split <;> simp

/-- One-step equation: a newline opens a fresh (empty) current line. -/
theorem toLines_cons_nl (cs : List Char) :
    toLines ( '\n' :: cs) = [] :: toLines cs := by
  simp [toLines]

/-- One-step equation: an ordinary character is prepended to the first line
of the remainder. -/
theorem toLines_cons_other (c : Char) (cs : List Char) (h : ¬ c = '\n') :
    toLines (c :: cs) =
      match toLines cs with
      | [] => [ [c]]
      | l :: ls => (c :: l) :: ls := by
  rw [toLines, if_neg h]

/-- Appending a final newline to content not already ending in one leaves the
line decomposition unchanged: the newline just terminates the last line. -/
theorem toLines_append_newline :
    ∀ (c : List Char), c ≠ [] → c.getLast? ≠ some '\n' →
      toLines (c ++ [ '\n']) = toLines c := by
  intro c
  induction c with
  | nil => intro h; exact absurd rfl h
  | cons x xs ih =>
    intro _ hlast
    cases xs with
    | nil =>
      have hx : ¬ x = '\n' := by
        intro h; exact hlast (by simp [h])
      simp [toLines, hx]
    | cons y ys =>
      have hlast' : (y :: ys).getLast? ≠ some '\n' := by
        rwa [List.getLast?_cons_cons] at hlast
      have hrec := ih (by simp) hlast'
      by_cases hx : x = '\n'
      · subst hx
        rw [List.cons_append, toLines_cons_nl, toLines_cons_nl, hrec]
      · rw [List.cons_append, toLines_cons_other x _ hx,
          toLines_cons_other x _ hx, hrec]

/-- C1: for every file content and language definition, the `LineCounts`
produced by `scan` satisfy `code + comment + blank = number of lines`, and a
trailing newline (terminating the last line rather than adding one) does not
change the result. -/
theorem scan_counts_sum_to_line_total (lang : LanguageDef) (content : List Char) :
    (scan lang content).code + (scan lang content).comment +
      (scan lang content).blank = (toLines content).length ∧
    (content ≠ [] → content.getLast? ≠ some '\n' →
      scan lang (content ++ [ '\n']) = scan lang content) := by
  refine ⟨scanLines_total lang (toLines content) ScanState.Normal,
    fun h1 h2 => ?_⟩
  unfold scan
  rw [toLines_append_newline content h1 h2]

/-- Witness for C1 at a concrete language and content. -/
theorem scan_counts_sum_to_line_total_witness :
    (scan ⟨[ "//".data], [( "/*".data, "*/".data)]⟩ ( "ab\n\ncd".data)).code +
      (scan ⟨[ "//".data], [( "/*".data, "*/".data)]⟩ ( "ab\n\ncd".data)).comment +
      (scan ⟨[ "//".data], [( "/*".data, "*/".data)]⟩ ( "ab\n\ncd".data)).blank =
      (toLines ( "ab\n\ncd".data)).length ∧
    scan ⟨[ "//".data], [( "/*".data, "*/".data)]⟩ ( "ab\n\ncd".data ++ [ '\n']) =
      scan ⟨[ "//".data], [( "/*".data, "*/".data)]⟩ ( "ab\n\ncd".data) := by
  have h := scan_counts_sum_to_line_total
    ⟨[ "//".data], [( "/*".data, "*/".data)]⟩ ( "ab\n\ncd".data)
  exact ⟨h.1, h.2 (by decide) (by decide)⟩

/-- C2: while the scanner is `InBlock`, a whitespace-only line counts as
comment (never blank); a whitespace-only line counts as blank in `Normal`
state; and a file of an opening delimiter line, five lines free of the
closing delimiter, and a closing delimiter line yields `comment = 7`,
`code = 0`, `blank = 0` against a language with that one block pair. -/
theorem inblock_dominates_blank
    (lang : LanguageDef) (pr : List Char × List Char) (line : List Char)
    (hb : blankLine line = true) :
    (scanLine lang (ScanState.InBlock pr) line).1 = LineClass.comment ∧
    (scanLine lang ScanState.Normal line).1 = LineClass.blank ∧
    (∀ l1 l2 l3 l4 l5 : List Char,
      (∀ l ∈ [l1, l2, l3, l4, l5], containsSub ( "*/".data) l = false) →
      scanLines ⟨[], [( "/*".data, "*/".data)]⟩ ScanState.Normal
        [ "/*".data, l1, l2, l3, l4, l5, "*/".data] = ⟨0, 7, 0⟩) := by
  refine ⟨rfl, by simp [scanLine, hb], fun l1 l2 l3 l4 l5 h => ?_⟩
  have hopen : scanLine ⟨[], [( "/*".data, "*/".data)]⟩ ScanState.Normal
      ( "/*".data) =
      (LineClass.comment, ScanState.InBlock ( "/*".data, "*/".data)) := by
    decide
  have hclose : scanLine ⟨[], [( "/*".data, "*/".data)]⟩
      (ScanState.InBlock ( "/*".data, "*/".data)) ( "*/".data) =
      (LineClass.comment, ScanState.Normal) := by
    decide
  have hmid : ∀ l, containsSub ( "*/".data) l = false →
      scanLine ⟨[], [( "/*".data, "*/".data)]⟩
        (ScanState.InBlock ( "/*".data, "*/".data)) l =
        (LineClass.comment, ScanState.InBlock ( "/*".data, "*/".data)) := by
    intro l hl
    simp [scanLine, hl]
  simp [scanLines, hopen, hclose, hmid l1 (h l1 (by simp)),
    hmid l2 (h l2 (by simp)), hmid l3 (h l3 (by simp)),
    hmid l4 (h l4 (by simp)), hmid l5 (h l5 (by simp))]

/-- Witness for C2 at a concrete whitespace line and five concrete lines. -/
theorem inblock_dominates_blank_witness :
    (scanLine ⟨[], [( "/*".data, "*/".data)]⟩
      (ScanState.InBlock ( "/*".data, "*/".data)) ( " \t".data)).1 =
      LineClass.comment ∧
    (scanLine ⟨[], [( "/*".data, "*/".data)]⟩ ScanState.Normal
      ( " \t".data)).1 = LineClass.blank ∧
    scanLines ⟨[], [( "/*".data, "*/".data)]⟩ ScanState.Normal
      [ "/*".data, "a".data, " x y".data, "".data, "b;".data, "c".data,
        "*/".data] = ⟨0, 7, 0⟩ := by
  have h := inblock_dominates_blank ⟨[], [( "/*".data, "*/".data)]⟩
    ( "/*".data, "*/".data) ( " \t".data) (by decide)
  exact ⟨h.1, h.2.1,
    h.2.2 ( "a".data) ( " x y".data) ( "".data) ( "b;".data) ( "c".data)
      (by decide)⟩


/-- Witness for C5 at an unreadable file and path `a.go`. -/
theorem unreadable_falls_back_to_ext_witness :
    getFileTypeByShebang (none : Option (List Char)) = ([], false) ∧
    getFileType ( "a.go".data) none = ((goExt ( "a.go".data)).drop 1, true) :=
  ⟨(unreadable_falls_back_to_ext ( "a.go".data) none (Or.inl rfl)).1,
   (unreadable_falls_back_to_ext ( "a.go".data) none (Or.inl rfl)).2
     (by decide)⟩

/-- Witness for C10 at content `#!/bin/sh` with no trailing newline. -/
theorem shebang_needs_newline_witness :
    getFileTypeByShebang (some ( "#!/bin/sh".data)) = ([], false) ∧
    getFileType ( "a.py".data) (some ( "#!/bin/sh".data)) =
      ((goExt ( "a.py".data)).drop 1, true) :=
  ⟨(shebang_needs_newline ( "a.py".data) ( "#!/bin/sh".data)
      (by decide) (by decide)).1,
   (shebang_needs_newline ( "a.py".data) ( "#!/bin/sh".data)
      (by decide) (by decide)).2 (by decide)⟩

/-- Witness for C3 at a path with extension `.xyz` and a ruby shebang. -/
theorem shebang_overrides_ext_witness :
    getFileType ( "a.xyz".data) (some ( "#!/usr/bin/env ruby\n".data)) =
      ( "rb".data, true) :=
  (shebang_overrides_ext ( "a.xyz".data)
    (some ( "#!/usr/bin/env ruby\n".data)) ( "rb".data) (by decide)).1

/-- A character of the `[.a-zA-Z/]` class is not regex whitespace. -/
theorem inLangClass_not_space {c : Char} (h : inLangClass c = true) :
    goReSpace c = false := by
  unfold inLangClass at h
  simp only [decide_eq_true_eq] at h
  apply decide_eq_false
  intro hsp
  rcases hsp with h1 | h1 | h1 | h1 | h1 <;>
    (subst h1; rcases h with h | h | h <;> revert h <;> decide)

/-- A `[a-zA-Z]` character is in the `[.a-zA-Z/]` class. -/
theorem isAlphaAZ_inLangClass {c : Char} (h : isAlphaAZ c = true) :
    inLangClass c = true := by
  unfold inLangClass
  simp [h]

/-- A `[a-zA-Z]` character is not regex whitespace. -/
theorem isAlphaAZ_not_space {c : Char} (h : isAlphaAZ c = true) :
    goReSpace c = false :=
  inLangClass_not_space (isAlphaAZ_inLangClass h)

/-- A `[a-zA-Z]` character is not a slash. -/
theorem isAlphaAZ_ne_slash {c : Char} (h : isAlphaAZ c = true) :
    ¬ c = '/' := by
  intro h1; subst h1; revert h; decide

/-- A `[.a-zA-Z/]` character is not a space. -/
theorem inLangClass_ne_space_char {c : Char} (h : inLangClass c = true) :
    ¬ c = ' ' := by
  intro h1; subst h1; revert h; decide

theorem matchShebangEnv_env_form (name : List Char) (hne : name ≠ [])
    (halpha : ∀ c ∈ name, isAlphaAZ c = true) :
    matchShebangEnv ( "#!/usr/bin/env ".data ++ name ++ [ '\n']) = some name := by
  show matchShebangEnv ( '#' :: '!' :: ( "/usr/bin/env".data ++
    ( ' ' :: (name ++ [ '\n'])))) = some name
  have hns : ∀ c ∈ "/usr/bin/env".data, (fun c => ¬ goReSpace c : Char → Bool) c = true := by
    decide
  have hal : ∀ c ∈ name, isAlphaAZ c = true := halpha
  simp only [matchShebangEnv]
  simp [goReSpace, isAlphaAZ, List.takeWhile_append_of_pos hal, hne]
  decide


theorem lastSlashPos_skip (t : List Char) :
    ∀ (n j : Nat), j ≤ n → (∀ i, j < i → i ≤ n → slashCond t i = false) →
    lastSlashPos t n = lastSlashPos t j := by
  intro n
  induction n with
  | zero =>
    intro j hj _
    rw [Nat.le_zero.mp hj]
  | succ m ihm =>
    intro j hj hcond
    rcases Nat.eq_or_lt_of_le hj with h | h
    · rw [h]
    · have hj' : j ≤ m := Nat.lt_succ_iff.mp h
      have hc : slashCond t (m + 1) = false := hcond (m + 1) h (Nat.le_refl _)
      simp only [lastSlashPos, hc]
      simp only [Bool.false_eq_true, if_false]
      exact ihm j hj' (fun i h1 h2 => hcond i h1 (Nat.le_succ_of_le h2))

theorem takeWhile_cons_pos {p : Char → Bool} {a : Char} {l : List Char}
    (h : p a = true) :
    List.takeWhile p (a :: l) = a :: List.takeWhile p l := by
  simp [List.takeWhile_cons, h]

theorem getShebang_path_form (p name : List Char) (hp : p ≠ [])
    (hcl : ∀ c ∈ p, inLangClass c = true)
    (hne : name ≠ []) (hal : ∀ c ∈ name, isAlphaAZ c = true) :
    getShebang ( "#!".data ++ p ++ '/' :: name ++ [ '\n']) =
      (shebangExtLookup name, true) := by
  have hline : ( "#!".data ++ p ++ '/' :: name ++ [ '\n']) =
      '#' :: '!' :: (p ++ ( '/' :: (name ++ [ '\n']))) := by
    simp
  rw [hline]
  have hnlen : 0 < name.length := List.length_pos.mpr hne
  have hdw : List.dropWhile (fun c => decide (c = ' '))
      (p ++ ( '/' :: (name ++ [ '\n']))) =
      p ++ ( '/' :: (name ++ [ '\n'])) := by
    cases p with
    | nil => exact absurd rfl hp
    | cons c p' =>
      rw [List.cons_append, List.dropWhile_cons]
      have hc : decide (c = ' ') = false :=
        decide_eq_false (inLangClass_ne_space_char (hcl c (List.mem_cons_self c p')))
      simp [hc]
  have hpns : ∀ c ∈ p, (fun c => decide ¬goReSpace c = true) c = true :=
    fun c hc => by simp [inLangClass_not_space (hcl c hc)]
  have hnns : ∀ c ∈ name, (fun c => decide ¬goReSpace c = true) c = true :=
    fun c hc => by simp [isAlphaAZ_not_space (hal c hc)]
  have htw : List.takeWhile (fun c => decide ¬goReSpace c = true)
      (p ++ ( '/' :: (name ++ [ '\n']))) = p ++ '/' :: name := by
    rw [List.takeWhile_append_of_pos hpns, takeWhile_cons_pos (by decide),
      List.takeWhile_append_of_pos hnns]
    simp [goReSpace]
  have hdrop : (p ++ ( '/' :: (name ++ [ '\n']))).drop
      (p ++ '/' :: name).length = [ '\n'] := by
    rw [show p ++ ( '/' :: (name ++ [ '\n'])) =
      (p ++ '/' :: name) ++ [ '\n'] from by simp]
    exact List.drop_left _ _
  have henv : matchShebangEnv ( '#' :: '!' :: (p ++ ( '/' :: (name ++ [ '\n'])))) =
      none := by
    simp only [matchShebangEnv]
    rw [hdw, htw, hdrop]
    simp
  have htwC : List.takeWhile inLangClass (p ++ ( '/' :: (name ++ [ '\n']))) =
      p ++ '/' :: name := by
    have hnc : ∀ c ∈ name, inLangClass c = true :=
      fun c hc => isAlphaAZ_inLangClass (hal c hc)
    rw [List.takeWhile_append_of_pos hcl, takeWhile_cons_pos (by decide),
      List.takeWhile_append_of_pos hnc]
    simp [inLangClass, isAlphaAZ]
  have hskip : ∀ i, p.length < i → i ≤ p.length + name.length →
      slashCond (p ++ ( '/' :: (name ++ [ '\n']))) i = false := by
    intro i h1 h2
    have hlt : i - p.length - 1 < name.length := by omega
    have hget : (p ++ ( '/' :: (name ++ [ '\n'])))[i]? =
        name[i - p.length - 1]? := by
      rw [List.getElem?_append_right (le_of_lt h1)]
      obtain ⟨k, hk⟩ : ∃ k, i - p.length = k + 1 := ⟨i - p.length - 1, by omega⟩
      rw [hk]
      rw [List.getElem?_cons_succ,
        List.getElem?_append_left (by omega : k < name.length)]
      simp
    have hgv : name[i - p.length - 1]? = some (name[i - p.length - 1]) :=
      List.getElem?_eq_getElem hlt
    have hmem : name[i - p.length - 1] ∈ name := List.getElem_mem hlt
    have hslash : ¬ name[i - p.length - 1] = '/' :=
      isAlphaAZ_ne_slash (hal _ hmem)
    unfold slashCond
    simp only [List.get?_eq_getElem?, hget, hgv]
    have hdec : decide (some (name[i - p.length - 1]) = some '/') = false :=
      decide_eq_false (by simpa using hslash)
    rw [hdec, Bool.false_and]
  have hat : slashCond (p ++ ( '/' :: (name ++ [ '\n']))) p.length = true := by
    have h1 : (p ++ ( '/' :: (name ++ [ '\n']))).get? p.length = some '/' := by
      rw [List.get?_append_right (Nat.le_refl _)]
      simp
    have h2 : (p ++ ( '/' :: (name ++ [ '\n']))).get? (p.length + 1) =
        name.get? 0 := by
      rw [List.get?_append_right (Nat.le_succ_of_le (Nat.le_refl _))]
      rw [show p.length + 1 - p.length = 1 from by omega]
      rw [List.get?_cons_succ, List.get?_append hnlen]
    cases hn : name with
    | nil => exact absurd hn hne
    | cons c name' =>
      have hca : isAlphaAZ c = true := hal c (by rw [hn]; exact List.mem_cons_self c name')
      rw [hn] at h1 h2
      unfold slashCond
      rw [Bool.and_eq_true]
      refine ⟨decide_eq_true h1, ?_⟩
      rw [h2]
      simp [hca]
  have hlsp : lastSlashPos (p ++ ( '/' :: (name ++ [ '\n'])))
      (p.length + name.length) = some p.length := by
    rw [lastSlashPos_skip _ (p.length + name.length) p.length
      (Nat.le_add_right _ _) (fun i hi1 hi2 => hskip i hi1 hi2)]
    obtain ⟨k, hk⟩ : ∃ k, p.length = k + 1 :=
      ⟨p.length - 1, by have := List.length_pos.mpr hp; omega⟩
    rw [hk]
    have hat' := hat
    rw [hk] at hat'
    simp only [lastSlashPos, hat', if_true]
  have hdrop1 : (p ++ ( '/' :: (name ++ [ '\n']))).drop (p.length + 1) =
      name ++ [ '\n'] := by
    rw [show p ++ ( '/' :: (name ++ [ '\n'])) =
      (p ++ [ '/']) ++ (name ++ [ '\n']) from by simp]
    exact List.drop_left' (by simp)
  have hlang : matchShebangLang ( '#' :: '!' :: (p ++ ( '/' :: (name ++ [ '\n'])))) =
      some name := by
    simp only [matchShebangLang]
    rw [hdw, htwC]
    have hlen : (p ++ '/' :: name).length - 1 = p.length + name.length := by
      simp [List.length_append, List.length_cons]
    rw [hlen, hlsp]
    show some (List.takeWhile isAlphaAZ
      (List.drop (p.length + 1) (p ++ ( '/' :: (name ++ [ '\n']))))) = some name
    rw [hdrop1]
    simp [List.takeWhile_append_of_pos hal, isAlphaAZ]
  simp [getShebang, henv, hlang]


/-- C4: `getShebang` extracts NAME from the env form `#!/usr/bin/env NAME`,
and the last (alphabetic) path segment from other `#!` interpreter paths; in
both cases the extracted name is mapped through `shebang2ext` when a mapping
exists (e.g. "python" maps to "py") and returned verbatim otherwise. -/
theorem getShebang_extracts_interpreter :
    (∀ name : List Char, name ≠ [] → (∀ c ∈ name, isAlphaAZ c = true) →
      getShebang ( "#!/usr/bin/env ".data ++ name ++ [ '\n']) =
        (shebangExtLookup name, true)) ∧
    (∀ pth name : List Char, pth ≠ [] → (∀ c ∈ pth, inLangClass c = true) →
      name ≠ [] → (∀ c ∈ name, isAlphaAZ c = true) →
      getShebang ( "#!".data ++ pth ++ '/' :: name ++ [ '\n']) =
        (shebangExtLookup name, true)) ∧
    shebangExtLookup ( "python".data) = "py".data := by
  refine ⟨fun name hne hal => ?_, getShebang_path_form, by decide⟩
  have henv := matchShebangEnv_env_form name hne hal
  simp only [getShebang, henv]

/-- Witness for C4 at the interpreters `python` (mapped) and `sh` (verbatim). -/
theorem getShebang_extracts_interpreter_witness :
    getShebang ( "#!/usr/bin/env ".data ++ "python".data ++ [ '\n']) =
      (shebangExtLookup ( "python".data), true) ∧
    getShebang ( "#!".data ++ "/bin".data ++ '/' :: "sh".data ++ [ '\n']) =
      (shebangExtLookup ( "sh".data), true) := by
  have h := getShebang_extracts_interpreter
  exact ⟨h.1 ( "python".data) (by decide) (by decide),
    h.2.1 ( "/bin".data) ( "sh".data) (by decide) (by decide) (by decide)
      (by decide)⟩

/-- `extRevAux` returns the empty extension when the scanned characters up to
the first separator contain no dot. -/
theorem extRevAux_skip :
    ∀ (xs ys acc : List Char),
      (∀ c ∈ xs, ¬ c = '/' ∧ ¬ c = '.') →
      (ys = [] ∨ ∃ zs, ys = '/' :: zs) →
      extRevAux (xs ++ ys) acc = [] := by
  intro xs
  induction xs with
  | nil =>
    intro ys acc _ hys
    rcases hys with rfl | ⟨zs, rfl⟩
    · rfl
    · simp [extRevAux]
  | cons x xs ih =>
    intro ys acc hx hys
    have h1 := hx x (List.mem_cons_self x xs)
    simp only [List.cons_append, extRevAux, if_neg h1.1, if_neg h1.2]
    exact ih ys _ (fun c hc => hx c (List.mem_cons_of_mem _ hc)) hys

/-- A character whose lowercase form occurs in "rebar" is neither a slash nor
a dot. -/
theorem ne_slash_dot_of_lower_rebar {c : Char}
    (h : Char.toLower c ∈ ( "rebar".data)) : ¬ c = '/' ∧ ¬ c = '.' := by
  constructor <;> (intro he; subst he; revert h; decide)

/-- A path whose basename lowercases to "rebar" has an empty extension: the
basename has no dot, so the backward scan of `goExt` reaches a separator or
the path start first. -/
theorem goExt_eq_nil_of_base_rebar (path : List Char)
    (h : lowerL (goBase path) = "rebar".data) : goExt path = [] := by
  by_cases hp : path = []
  · subst hp
    exact absurd h (by decide)
  · unfold goBase at h
    rw [if_neg hp] at h
    by_cases hre : path.reverse.dropWhile (fun c => c = '/') = []
    · rw [if_pos hre] at h
      exact absurd h (by decide)
    · rw [if_neg hre] at h
      unfold goExt
      have hchars : ∀ c ∈ (path.reverse.dropWhile (fun c => c = '/')).takeWhile
          (fun c => ¬ c = '/'), ¬ c = '/' ∧ ¬ c = '.' := by
        intro c hc
        have hrev : c ∈ ((path.reverse.dropWhile (fun c => c = '/')).takeWhile
            (fun c => ¬ c = '/')).reverse := List.mem_reverse.mpr hc
        have hlow : Char.toLower c ∈ ( "rebar".data) := by
          have hm : Char.toLower c ∈ lowerL
              (((path.reverse.dropWhile (fun c => c = '/')).takeWhile
                (fun c => ¬ c = '/')).reverse) := List.mem_map_of_mem _ hrev
          rwa [h] at hm
        have hslash : ¬ c = '/' := by
          have := List.mem_takeWhile_imp hc
          simpa using this
        exact ⟨hslash, (ne_slash_dot_of_lower_rebar hlow).2⟩
      have hsplit : path.reverse =
          path.reverse.takeWhile (fun c => c = '/') ++
            path.reverse.dropWhile (fun c => c = '/') :=
        (List.takeWhile_append_dropWhile (fun c => c = '/') path.reverse).symm
      cases htw : path.reverse.takeWhile (fun c => c = '/') with
      | cons d ds =>
        have hd : d = '/' := by
          have : d ∈ path.reverse.takeWhile (fun c => c = '/') := by
            rw [htw]; exact List.mem_cons_self d ds
          have := List.mem_takeWhile_imp this
          simpa using this
        rw [hsplit, htw, hd]
        simp [extRevAux]
      | nil =>
        rw [hsplit, htw, List.nil_append]
        have hsplit2 : path.reverse.dropWhile (fun c => c = '/') =
            (path.reverse.dropWhile (fun c => c = '/')).takeWhile
              (fun c => ¬ c = '/') ++
            (path.reverse.dropWhile (fun c => c = '/')).dropWhile
              (fun c => ¬ c = '/') :=
          (List.takeWhile_append_dropWhile _ _).symm
        rw [hsplit2]
        apply extRevAux_skip _ _ _ hchars
        have hh := List.head?_dropWhile_not (fun c => decide (¬ c = '/'))
          (path.reverse.dropWhile (fun c => c = '/'))
        cases hdw : (path.reverse.dropWhile (fun c => c = '/')).dropWhile
            (fun c => ¬ c = '/') with
        | nil => exact Or.inl rfl
        | cons z zs =>
          right
          refine ⟨zs, ?_⟩
          rw [hdw] at hh
          simp at hh
          rw [hh]


/-- C6: a path whose basename equals "rebar" case-insensitively is explicitly
skipped by the full classifier — no language, `ok = false` — regardless of
extension, shebang line, or content. -/
theorem getFileTypeFull_rebar (enry : List Char → List Char → List Char)
    (path : List Char) (content : Option (List Char))
    (h : lowerL (goBase path) = "rebar".data) :
    getFileTypeFull enry path content = ([], false) := by
  have hext : goExt path = [] := goExt_eq_nil_of_base_rebar path h
  have hlen : (goBase path).length = 5 := by
    have hc := congrArg List.length h
    simpa [lowerL] using hc
  have hb : ∀ (K : List Char), ¬ K.length = 5 → ¬ goBase path = K :=
    fun K hK he => hK (he ▸ hlen)
  have hm1 : ¬ lowerL (goBase path) = "makefile".data := by rw [h]; decide
  have hm2 : ¬ lowerL (goBase path) = "nukefile".data := by rw [h]; decide
  simp [getFileTypeFull, hext, h, hm1, hm2,
    hb ( "meson.build".data) (by decide),
    hb ( "meson_options.txt".data) (by decide),
    hb ( "CMakeLists.txt".data) (by decide),
    hb ( "configure.ac".data) (by decide),
    hb ( "Makefile.am".data) (by decide),
    hb ( "pom.xml".data) (by decide),
    hb ( "build.xml".data) (by decide)]

/-- Witness for C6 at the path `/src/Rebar` with a readable shebang file. -/
theorem getFileTypeFull_rebar_witness :
    getFileTypeFull (fun _ _ => "X".data) ( "/src/Rebar".data)
      (some ( "#!/bin/sh\n".data)) = ([], false) :=
  getFileTypeFull_rebar _ _ _ (by decide)


/-- Mutual non-strictness under `lessLang` forces equal sort keys. -/
theorem lessLang_antisymm {a b : Language}
    (h1 : lessLang a b = false) (h2 : lessLang b a = false) :
    a.Code = b.Code ∧ a.Name = b.Name := by
  unfold lessLang at h1 h2
  by_cases hc : a.Code = b.Code
  · rw [if_pos hc] at h1
    rw [if_pos hc.symm] at h2
    rw [decide_eq_false_iff_not] at h1 h2
    exact ⟨hc, le_antisymm (not_lt.mp h2) (not_lt.mp h1)⟩
  · rw [if_neg hc] at h1
    rw [if_neg (fun he => hc he.symm)] at h2
    rw [decide_eq_false_iff_not] at h1 h2
    exact absurd (by omega) hc

/-- Two sortings (with respect to `lessLang`) of the same multiset of
languages with pairwise-distinct `(Code, Name)` keys coincide. -/
theorem sortedLanguages_unique :
    ∀ (s₁ s₂ : List Language), s₁.Perm s₂ →
      s₁.Pairwise (fun a b => lessLang b a = false) →
      s₂.Pairwise (fun a b => lessLang b a = false) →
      s₁.Pairwise (fun a b => ¬(a.Code = b.Code ∧ a.Name = b.Name)) →
      s₁ = s₂ := by
  intro s₁
  induction s₁ with
  | nil =>
    intro s₂ hp _ _ _
    exact (List.Perm.eq_nil hp.symm).symm
  | cons a t ih =>
    intro s₂ hp hs₁ hs₂ hd
    cases s₂ with
    | nil => exact absurd (List.Perm.eq_nil hp) (by simp)
    | cons b t₂ =>
      rcases List.pairwise_cons.mp hs₁ with ⟨ha1, ht1⟩
      rcases List.pairwise_cons.mp hs₂ with ⟨hb2, ht2⟩
      rcases List.pairwise_cons.mp hd with ⟨hd1, hdt⟩
      have hab : a = b := by
        by_cases he : a = b
        · exact he
        · have hain : a ∈ b :: t₂ := hp.subset (List.mem_cons_self a t)
          have hbin : b ∈ a :: t := hp.symm.subset (List.mem_cons_self b t₂)
          have ha2 : a ∈ t₂ := by
            rcases List.mem_cons.mp hain with h | h
            · exact absurd h he
            · exact h
          have hb1 : b ∈ t := by
            rcases List.mem_cons.mp hbin with h | h
            · exact absurd h.symm he
            · exact h
          have hkey := lessLang_antisymm (hb2 a ha2) (ha1 b hb1)
          exact absurd hkey (hd1 b hb1)
      subst hab
      have hpt : t.Perm t₂ := hp.cons_inv
      exact congrArg (List.cons a) (ih t₂ hpt ht1 ht2 hdt)

/-- C7: sorting with the reporting comparator orders languages by descending
`Code`, ties broken by ascending `Name`, and any two sorted outputs of the
same multiset of languages with pairwise-distinct `(Code, Name)` keys are
identical, independently of traversal order. -/
theorem languages_sort_deterministic
    (l₁ l₂ s₁ s₂ : List Language)
    (hll : l₁.Perm l₂)
    (hdist : l₁.Pairwise (fun a b => ¬(a.Code = b.Code ∧ a.Name = b.Name)))
    (h₁ : s₁.Perm l₁) (h₂ : s₂.Perm l₂)
    (hs₁ : s₁.Pairwise (fun a b => lessLang b a = false))
    (hs₂ : s₂.Pairwise (fun a b => lessLang b a = false)) :
    s₁ = s₂ ∧
    s₁.Pairwise (fun a b =>
      b.Code < a.Code ∨ (a.Code = b.Code ∧ a.Name ≤ b.Name)) := by
  have hsym : ∀ {x y : Language}, ¬(x.Code = y.Code ∧ x.Name = y.Name) →
      ¬(y.Code = x.Code ∧ y.Name = x.Name) :=
    fun hxy hc => hxy ⟨hc.1.symm, hc.2.symm⟩
  have hd₁ : s₁.Pairwise (fun a b => ¬(a.Code = b.Code ∧ a.Name = b.Name)) :=
    (h₁.pairwise_iff hsym).mpr hdist
  have himp : ∀ {a b : Language}, lessLang b a = false →
      (b.Code < a.Code ∨ (a.Code = b.Code ∧ a.Name ≤ b.Name)) := by
    intro a b hab
    unfold lessLang at hab
    by_cases hc : b.Code = a.Code
    · rw [if_pos hc] at hab
      rw [decide_eq_false_iff_not] at hab
      exact Or.inr ⟨hc.symm, not_lt.mp hab⟩
    · rw [if_neg hc] at hab
      rw [decide_eq_false_iff_not] at hab
      exact Or.inl (by omega)
  exact ⟨sortedLanguages_unique s₁ s₂ (h₁.trans (hll.trans h₂.symm)) hs₁ hs₂ hd₁,
    hs₁.imp himp⟩

/-- Witness for C7 at a two-language multiset presented in two orders. -/
theorem languages_sort_deterministic_witness :
    ([⟨ "C", [], [], [], (5 : Int), 0, 0, 0⟩, ⟨ "Go", [], [], [], 3, 0, 0, 0⟩] :
        List Language) =
      [⟨ "C", [], [], [], 5, 0, 0, 0⟩, ⟨ "Go", [], [], [], 3, 0, 0, 0⟩] ∧
    ([⟨ "C", [], [], [], (5 : Int), 0, 0, 0⟩, ⟨ "Go", [], [], [], 3, 0, 0, 0⟩] :
        List Language).Pairwise (fun a b =>
      b.Code < a.Code ∨ (a.Code = b.Code ∧ a.Name ≤ b.Name)) :=
  languages_sort_deterministic
    [⟨ "Go", [], [], [], 3, 0, 0, 0⟩, ⟨ "C", [], [], [], 5, 0, 0, 0⟩]
    [⟨ "C", [], [], [], 5, 0, 0, 0⟩, ⟨ "Go", [], [], [], 3, 0, 0, 0⟩]
    [⟨ "C", [], [], [], 5, 0, 0, 0⟩, ⟨ "Go", [], [], [], 3, 0, 0, 0⟩]
    [⟨ "C", [], [], [], 5, 0, 0, 0⟩, ⟨ "Go", [], [], [], 3, 0, 0, 0⟩]
    (by decide) (by decide) (by decide) (by decide) (by decide) (by decide)


end gocloc
